import Mathlib

/-!
Verification of the Edinburgh Finds repository against its specification.

Part 1 models the confidence-weighted field merger (spec §3–§7).  The
backend implementation (`services/upsert_entity.py`) is not part of the
source snapshot, so the merger is modelled from the specification text.

Part 2 embeds the frontend logic that is present in the source snapshot:
the category page's not-found decision (`app/category/[slug]/page.tsx`),
the categories configuration (`app/config/categories.ts`), the venue card
badge rendering (`app/components/VenueCard.tsx`) and the listing page's
Quick Facts truthiness test (`app/listing/[slug]/page.tsx`).
-/

/-- Generic association-list lookup: the first entry with the given key. -/
def alookup {α : Type} : List (String × α) → String → Option α
  | [], _ => none
  | (k', v) :: rest, k => if k' = k then some v else alookup rest k

/-- Replace the first entry with the given key, or append the entry if the
key is absent. -/
def setField {α : Type} : List (String × α) → String → α → List (String × α)
  | [], k, v => [(k, v)]
  | (k', v') :: rest, k, v =>
      if k' = k then (k, v) :: rest else (k', v') :: setField rest k v

mutual

/-- JSON-like field values of the data model (spec §3: string, number,
boolean, structured JSON-like value, or null). -/
inductive Value where
  | null : Value
  | bool (b : Bool) : Value
  | num (q : Rat) : Value
  | str (s : String) : Value
  | arr (elems : ValueList) : Value
deriving DecidableEq, Repr

/-- A list of JSON-like values, the element sequence of a structured
array value. -/
inductive ValueList where
  | nil : ValueList
  | cons (v : Value) (rest : ValueList) : ValueList
deriving DecidableEq, Repr

end

/-- Declared field types, used for the per-field type-compatibility check of
spec §4.1 / §7 (`TypeMismatch`). -/
inductive Ty where
  | bool : Ty
  | num : Ty
  | str : Ty
  | arr : Ty
deriving DecidableEq, Repr

/-- A value is compatible with a declared type; `null` is compatible with
every declared type. -/
def compatible : Ty → Value → Bool
  | _, Value.null => true
  | Ty.bool, Value.bool _ => true
  | Ty.num, Value.num _ => true
  | Ty.str, Value.str _ => true
  | Ty.arr, Value.arr _ => true
  | _, _ => false

/-- Compatibility of a field's value with its declared type in the schema;
a field with no declared type is unconstrained. -/
def compatAt (schema : List (String × Ty)) (k : String) (v : Value) : Bool :=
  match alookup schema k with
  | none => true
  | some ty => compatible ty v

/-- A Record together with its co-resident Confidence Map (spec §3). -/
structure RecordCM where
  record : List (String × Value)
  confMap : List (String × Rat)
deriving DecidableEq, Repr

/-- Every confidence value in the map lies within [0.0, 1.0]. -/
def validConf (cm : List (String × Rat)) : Bool :=
  cm.all (fun p => decide (0 ≤ p.2) && decide (p.2 ≤ 1))

/-- Error outcome of a merge call (spec §7): a confidence score outside
[0, 1] rejects the whole merge call.  A type mismatch is not a fatal
outcome under the recommended policy; it is surfaced in the warning list. -/
inductive MergeError where
  | invalidConfidence : MergeError
deriving DecidableEq, Repr

/-- Modelled from the spec: the per-field decision of the
Confidence-Weighted Field Merger (spec §4.1 steps 1–5) applied to one
candidate field, updating intermediate state `acc`.  The implementation
(`services/upsert_entity.py`) is absent from the source snapshot.
A field whose value is incompatible with its declared type is skipped
(spec §7 recommended policy). -/
def mergeStep (threshold : Rat) (schema : List (String × Ty))
    (cconf : List (String × Rat)) (acc : RecordCM) (p : String × Value) :
    RecordCM :=
  if compatAt schema p.1 p.2 then
    let ov := alookup acc.record p.1
    let oc := (alookup acc.confMap p.1).getD 0
    let nc := (alookup cconf p.1).getD 0
    if ov.getD Value.null = p.2 then
      ⟨setField acc.record p.1 (ov.getD Value.null),
       setField acc.confMap p.1 (max oc nc)⟩
    else if threshold ≤ nc ∨ oc < nc then
      ⟨setField acc.record p.1 p.2, setField acc.confMap p.1 nc⟩
    else acc
  else acc

/-- Modelled from the spec: the Confidence-Weighted Field Merger
(spec §4.1, §7).  The implementation (`services/upsert_entity.py`) is
absent from the source snapshot.  The merge validates every confidence
value of both inputs, then folds the per-field decision over the fields
present in the candidate; fields whose value is incompatible with the
declared type are skipped and reported in the warning list returned
alongside the merged result. -/
def merge (schema : List (String × Ty)) (existing cand : RecordCM)
    (threshold : Rat) : Except MergeError (RecordCM × List String) :=
  if validConf existing.confMap && validConf cand.confMap then
    Except.ok
      (cand.record.foldl (mergeStep threshold schema cand.confMap) existing,
       (cand.record.filter (fun p => !(compatAt schema p.1 p.2))).map Prod.fst)
  else
    Except.error MergeError.invalidConfidence

/-- The data-model invariant (spec §3): every confidence value is within
[0.0, 1.0], and a confidence entry is present only for fields whose value
is set in the record. -/
def Invariant (rc : RecordCM) : Prop :=
  validConf rc.confMap = true ∧
    ∀ p ∈ rc.confMap, (alookup rc.record p.1).isSome = true

/-- The default threshold of spec §4.1. -/
def defaultThreshold : Rat := 7 / 10

/-- A card field entry of `app/config/categories.ts`: a venues-row column
name together with an optional display suffix. -/
structure CardField where
  field : String
  suffix : Option String
deriving DecidableEq, Repr

/-- `EntityConfig` from `app/config/categories.ts`. -/
structure EntityConfig where
  summaryField : String
  cardFields : List CardField
deriving DecidableEq, Repr

/-- `CategoryConfig` from `app/config/categories.ts`. -/
structure CategoryConfig where
  name : String
  image : String
  isLive : Bool
  venue : Option EntityConfig := none
  retailer : Option EntityConfig := none
  coach : Option EntityConfig := none
  club : Option EntityConfig := none
  event : Option EntityConfig := none
deriving DecidableEq, Repr

/-- The `categories` configuration object of `app/config/categories.ts`,
keyed by category slug. -/
def categories : List (String × CategoryConfig) :=
  [("padel",
    { name := "Padel", image := "/images/categories/padel.jpg",
      isLive := true,
      venue := some { summaryField := "padel_summary",
                      cardFields := [⟨"padel_total_courts", some "courts"⟩] } }),
   ("tennis",
    { name := "Tennis", image := "/images/categories/tennis.jpg",
      isLive := true,
      venue := some { summaryField := "tennis_summary",
                      cardFields := [⟨"tennis_total_courts", some "courts"⟩] } }),
   ("pickleball",
    { name := "Pickleball", image := "/images/categories/pickleball.jpg",
      isLive := false,
      venue := some { summaryField := "pickleball_summary",
                      cardFields := [⟨"pickleball_total_courts", some "courts"⟩] } }),
   ("board-games",
    { name := "Board Games", image := "/images/categories/board-games.jpg",
      isLive := false,
      venue := some { summaryField := "board_games_summary",
                      cardFields := [] } }),
   ("football",
    { name := "Football", image := "/images/categories/football.jpg",
      isLive := false,
      venue := some { summaryField := "football_summary",
                      cardFields := [⟨"football_total_pitches", some "pitches"⟩] } }),
   ("pilates",
    { name := "Pilates", image := "/images/categories/pilates.jpg",
      isLive := false,
      venue := some { summaryField := "pilates_summary",
                      cardFields := [⟨"pilates_total_studios", some "studios"⟩] } })]

/-- A database column value in a venues row, as seen by the frontend. -/
inductive DBValue where
  | num (n : Int) : DBValue
  | str (s : String) : DBValue
  | bool (b : Bool) : DBValue
deriving DecidableEq, Repr

/-- A venues row, as dynamically-keyed column access sees it: an entry
that is present with `none` is a SQL NULL, and an absent key reads as
JavaScript `undefined`. -/
abbrev VenueRow : Type := List (String × Option DBValue)

/-- The fields of a listing row that the embedded pages read. -/
structure Listing where
  slug : String
  entity_name : String
  entity_type : String
  venues : Option VenueRow
deriving DecidableEq, Repr

/-- The rendering outcome of the category page: either the not-found page
or the page with the category header and the listing grid. -/
inductive CategoryPageResult where
  | notFound : CategoryPageResult
  | page (cfg : CategoryConfig) (listings : List Listing) : CategoryPageResult
deriving DecidableEq, Repr

/-- `CategoryPage` from `app/category/[slug]/page.tsx`: looks the slug up
in the categories configuration, calls `notFound()` when the entry is
missing or not live, queries the listings for the slug, calls
`notFound()` when the query result is empty, and otherwise renders the
page with the listing grid.  The Prisma query is the external
collaborator `fetch`. -/
def categoryPage (fetch : String → List Listing) (slug : String) :
    CategoryPageResult :=
  match alookup categories slug with
  | none => CategoryPageResult.notFound
  | some cfg =>
      if cfg.isLive = false then CategoryPageResult.notFound
      else
        let listings := fetch slug
        if listings.length = 0 then CategoryPageResult.notFound
        else CategoryPageResult.page cfg listings

/-- The per-field badge of `VenueCard` (`app/components/VenueCard.tsx`):
`const value = listing.venues[field]; if (value !== null && value !==
undefined)` render `{value} {suffix}`, else render nothing. -/
def cardFieldBadge (vs : VenueRow) (cf : CardField) :
    Option (DBValue × Option String) :=
  match alookup vs cf.field with
  | some (some v) => some (v, cf.suffix)
  | _ => none

/-- The list of badges `VenueCard` renders for a listing: nothing when
`listing.venues` is null, otherwise one badge per configured card field
whose value is neither null nor undefined. -/
def venueCardBadges (listing : Listing) (cfg : EntityConfig) :
    List (DBValue × Option String) :=
  match listing.venues with
  | none => []
  | some vs => cfg.cardFields.filterMap (cardFieldBadge vs)

/-- JavaScript truthiness of a dynamically read venues-row value: the
number 0, the empty string, `false`, SQL NULL and `undefined` are falsy. -/
def truthyDB : Option (Option DBValue) → Bool
  | some (some (DBValue.num n)) => decide (n ≠ 0)
  | some (some (DBValue.str s)) => decide (s ≠ "")
  | some (some (DBValue.bool b)) => b
  | _ => false

/-- The listing page's Quick Facts tennis-courts item
(`app/listing/[slug]/page.tsx` lines 84–94): rendered when
`listing.venues && listing.venues.tennis &&
listing.venues.tennis_total_courts` is truthy. -/
def quickFactsShowsTennisCourts (listing : Listing) : Bool :=
  match listing.venues with
  | none => false
  | some vs => truthyDB (alookup vs "tennis") &&
      truthyDB (alookup vs "tennis_total_courts")

/-- The value/confidence pair a Record+ConfidenceMap holds at one field. -/
def sigmaAt (rc : RecordCM) (k : String) : Option Value × Option Rat :=
  (alookup rc.record k, alookup rc.confMap k)

/-- The per-field decision of spec §4.1 steps 1–5 expressed on the
value/confidence pair at one field, mirroring `mergeStep`. -/
def stepAt (threshold : Rat) (schema : List (String × Ty))
    (cconf : List (String × Rat)) (s : Option Value × Option Rat)
    (k : String) (nv : Value) : Option Value × Option Rat :=
  if compatAt schema k nv then
    if s.1.getD Value.null = nv then
      (some (s.1.getD Value.null),
       some (max (s.2.getD 0) ((alookup cconf k).getD 0)))
    else if threshold ≤ (alookup cconf k).getD 0 ∨
        s.2.getD 0 < (alookup cconf k).getD 0 then
      (some nv, some ((alookup cconf k).getD 0))
    else s
  else s

theorem alookup_setField_self {α : Type} (l : List (String × α)) (k : String)
    (v : α) : alookup (setField l k v) k = some v := by
  induction l with
  | nil => simp [setField, alookup]
  | cons p rest ih =>
      by_cases h : p.1 = k
      · simp [setField, h, alookup]
      · simp [setField, h, alookup, ih]

theorem alookup_setField_ne {α : Type} (l : List (String × α)) {k k' : String}
    (h : k' ≠ k) (v : α) : alookup (setField l k v) k' = alookup l k' := by
  have hk : ¬k = k' := by
    intro hh
    exact h hh.symm
  induction l with
  | nil => simp [setField, alookup, hk]
  | cons p rest ih =>
      obtain ⟨k₀, v₀⟩ := p
      by_cases hp : k₀ = k
      · subst hp
        simp [setField, alookup, hk]
      · simp [setField, alookup, hp, ih]

theorem mem_setField {α : Type} {l : List (String × α)} {k : String} {v : α}
    {q : String × α} (h : q ∈ setField l k v) : q = (k, v) ∨ q ∈ l := by
  induction l with
  | nil => simpa [setField] using h
  | cons p rest ih =>
      by_cases hp : p.1 = k
      · simp only [setField, hp, if_pos rfl] at h
        rcases List.mem_cons.mp h with h | h
        · exact Or.inl h
        · exact Or.inr (List.mem_cons_of_mem _ h)
      · simp only [setField, hp, if_neg hp] at h
        rcases List.mem_cons.mp h with h | h
        · exact Or.inr (h ▸ List.mem_cons_self _ _)
        · rcases ih h with h | h
          · exact Or.inl h
          · exact Or.inr (List.mem_cons_of_mem _ h)

theorem alookup_mem {α : Type} {l : List (String × α)} {k : String} {v : α}
    (h : alookup l k = some v) : (k, v) ∈ l := by
  induction l with
  | nil => simp [alookup] at h
  | cons p rest ih =>
      by_cases hp : p.1 = k
      · simp only [alookup, if_pos hp] at h
        obtain ⟨k₀, v₀⟩ := p
        obtain rfl : v₀ = v := Option.some.inj h
        obtain rfl : k₀ = k := hp
        exact List.mem_cons_self _ _
      · simp only [alookup, if_neg hp] at h
        exact List.mem_cons_of_mem _ (ih h)

theorem setField_eq_self {α : Type} {l : List (String × α)} {k : String}
    {v : α} (h : alookup l k = some v) : setField l k v = l := by
  induction l with
  | nil => simp [alookup] at h
  | cons p rest ih =>
      by_cases hp : p.1 = k
      · simp only [alookup, if_pos hp] at h
        obtain ⟨k₀, v₀⟩ := p
        obtain rfl : v₀ = v := Option.some.inj h
        obtain rfl : k₀ = k := hp
        simp [setField]
      · simp only [alookup, if_neg hp] at h
        simp [setField, hp, ih h]

theorem sigmaAt_mergeStep_self (t : Rat) (sch : List (String × Ty))
    (cc : List (String × Rat)) (acc : RecordCM) (k : String) (nv : Value) :
    sigmaAt (mergeStep t sch cc acc (k, nv)) k =
      stepAt t sch cc (sigmaAt acc k) k nv := by
  simp only [mergeStep, stepAt, sigmaAt]
  split_ifs with h1 h2 h3 <;>
    simp_all [alookup_setField_self]

theorem sigmaAt_mergeStep_ne (t : Rat) (sch : List (String × Ty))
    (cc : List (String × Rat)) (acc : RecordCM) {k k' : String} (nv : Value)
    (h : k' ≠ k) :
    sigmaAt (mergeStep t sch cc acc (k, nv)) k' = sigmaAt acc k' := by
  simp only [mergeStep, sigmaAt]
  split_ifs <;> simp [alookup_setField_ne _ h]

theorem sigmaAt_fold_frame (t : Rat) (sch : List (String × Ty))
    (cc : List (String × Rat)) (l : List (String × Value)) (acc : RecordCM)
    (k : String) (h : k ∉ l.map Prod.fst) :
    sigmaAt (l.foldl (mergeStep t sch cc) acc) k = sigmaAt acc k := by
  induction l generalizing acc with
  | nil => rfl
  | cons p rest ih =>
      simp only [List.map_cons, List.mem_cons, not_or] at h
      rw [List.foldl_cons, ih _ h.2]
      obtain ⟨k₁, v₁⟩ := p
      exact sigmaAt_mergeStep_ne t sch cc acc v₁ h.1

theorem sigmaAt_fold_mem (t : Rat) (sch : List (String × Ty))
    (cc : List (String × Rat)) {l : List (String × Value)} (acc : RecordCM)
    {k : String} {nv : Value} (hnd : (l.map Prod.fst).Nodup)
    (hm : (k, nv) ∈ l) :
    sigmaAt (l.foldl (mergeStep t sch cc) acc) k =
      stepAt t sch cc (sigmaAt acc k) k nv := by
  induction l generalizing acc with
  | nil => simp at hm
  | cons p rest ih =>
      simp only [List.map_cons, List.nodup_cons] at hnd
      rcases List.mem_cons.mp hm with h | h
      · obtain rfl : p = (k, nv) := h.symm
        rw [List.foldl_cons,
          sigmaAt_fold_frame t sch cc rest _ k (by simpa using hnd.1),
          sigmaAt_mergeStep_self]
      · have hk : k ≠ p.1 := by
          intro hkp
          exact hnd.1 (hkp ▸ List.mem_map_of_mem Prod.fst h)
        rw [List.foldl_cons]
        obtain ⟨k₁, v₁⟩ := p
        rw [ih _ hnd.2 h, sigmaAt_mergeStep_ne t sch cc acc v₁ hk]

theorem validConf_bounds {cm : List (String × Rat)} {k : String} {c : Rat}
    (hv : validConf cm = true) (h : alookup cm k = some c) : 0 ≤ c ∧ c ≤ 1 := by
  have hm : (k, c) ∈ cm := alookup_mem h
  have := (List.all_eq_true.mp hv) _ hm
  simpa using this

theorem validConf_getD (cm : List (String × Rat)) (k : String)
    (hv : validConf cm = true) :
    0 ≤ (alookup cm k).getD 0 ∧ (alookup cm k).getD 0 ≤ 1 := by
  cases h : alookup cm k with
  | none => simp
  | some c => simpa using validConf_bounds hv h

theorem validConf_setField {cm : List (String × Rat)} {k : String} {c : Rat}
    (hv : validConf cm = true) (h0 : 0 ≤ c) (h1 : c ≤ 1) :
    validConf (setField cm k c) = true := by
  refine List.all_eq_true.mpr ?_
  intro q hq
  rcases mem_setField hq with hq | hq
  · subst hq
    simp [h0, h1]
  · exact (List.all_eq_true.mp hv) _ hq

theorem mergeStep_validConf (t : Rat) (sch : List (String × Ty))
    {cc : List (String × Rat)} {acc : RecordCM} (p : String × Value)
    (hacc : validConf acc.confMap = true) (hcc : validConf cc = true) :
    validConf (mergeStep t sch cc acc p).confMap = true := by
  obtain ⟨hoc0, hoc1⟩ := validConf_getD acc.confMap p.1 hacc
  obtain ⟨hnc0, hnc1⟩ := validConf_getD cc p.1 hcc
  simp only [mergeStep]
  split_ifs with h1 h2 h3
  · exact validConf_setField hacc (le_max_of_le_left hoc0)
      (max_le hoc1 hnc1)
  · exact validConf_setField hacc hnc0 hnc1
  · exact hacc
  · exact hacc

theorem fold_validConf (t : Rat) (sch : List (String × Ty))
    {cc : List (String × Rat)} (l : List (String × Value)) {acc : RecordCM}
    (hacc : validConf acc.confMap = true) (hcc : validConf cc = true) :
    validConf (l.foldl (mergeStep t sch cc) acc).confMap = true := by
  induction l generalizing acc with
  | nil => exact hacc
  | cons p rest ih =>
      rw [List.foldl_cons]
      exact ih (mergeStep_validConf t sch p hacc hcc)

theorem setField_pair_isSome {rec : List (String × Value)}
    {cm : List (String × Rat)} {k : String} {v : Value} {c : Rat}
    (hinv : ∀ p ∈ cm, (alookup rec p.1).isSome = true) :
    ∀ p ∈ setField cm k c, (alookup (setField rec k v) p.1).isSome = true := by
  intro q hq
  by_cases hqk : q.1 = k
  · rw [hqk, alookup_setField_self]
    rfl
  · have hq' : q ∈ cm := by
      rcases mem_setField hq with h | h
      · exact absurd (by rw [h]) hqk
      · exact h
    rw [alookup_setField_ne _ hqk]
    exact hinv _ hq'

theorem mergeStep_invariant (t : Rat) (sch : List (String × Ty))
    {cc : List (String × Rat)} {acc : RecordCM} (p : String × Value)
    (hacc : Invariant acc) (hcc : validConf cc = true) :
    Invariant (mergeStep t sch cc acc p) := by
  refine ⟨mergeStep_validConf t sch p hacc.1 hcc, ?_⟩
  simp only [mergeStep]
  split_ifs with h1 h2 h3
  · exact setField_pair_isSome hacc.2
  · exact setField_pair_isSome hacc.2
  · exact hacc.2
  · exact hacc.2

theorem fold_invariant (t : Rat) (sch : List (String × Ty))
    {cc : List (String × Rat)} (l : List (String × Value)) {acc : RecordCM}
    (hacc : Invariant acc) (hcc : validConf cc = true) :
    Invariant (l.foldl (mergeStep t sch cc) acc) := by
  induction l generalizing acc with
  | nil => exact hacc
  | cons p rest ih =>
      rw [List.foldl_cons]
      exact ih (mergeStep_invariant t sch p hacc hcc)

theorem foldl_fix {α β : Type} {f : α → β → α} {acc : α} :
    ∀ {l : List β}, (∀ p ∈ l, f acc p = acc) → l.foldl f acc = acc
  | [], _ => rfl
  | p :: rest, h => by
      rw [List.foldl_cons, h p (List.mem_cons_self _ _)]
      exact foldl_fix fun q hq => h q (List.mem_cons_of_mem _ hq)

theorem mergeOk_spec {sch : List (String × Ty)} {e c : RecordCM} {t : Rat}
    {r : RecordCM} {w : List String}
    (hok : merge sch e c t = Except.ok (r, w)) :
    validConf e.confMap = true ∧ validConf c.confMap = true ∧
      r = c.record.foldl (mergeStep t sch c.confMap) e ∧
      w = (c.record.filter (fun p => !(compatAt sch p.1 p.2))).map Prod.fst := by
  unfold merge at hok
  by_cases hv : (validConf e.confMap && validConf c.confMap) = true
  · rw [if_pos hv] at hok
    simp only [Except.ok.injEq, Prod.mk.injEq] at hok
    simp only [Bool.and_eq_true] at hv
    exact ⟨hv.1, hv.2, hok.1.symm, hok.2.symm⟩
  · rw [if_neg hv] at hok
    exact absurd hok (by simp)

theorem mergeStep_fixed (t : Rat) (sch : List (String × Ty))
    (cc : List (String × Rat)) {rc : RecordCM} {k : String} {nv : Value}
    {s : Option Value × Option Rat}
    (hs : sigmaAt rc k = stepAt t sch cc s k nv) :
    mergeStep t sch cc rc (k, nv) = rc := by
  by_cases hcompat : compatAt sch k nv = true
  · rw [stepAt, if_pos hcompat] at hs
    by_cases h2 : s.1.getD Value.null = nv
    · rw [if_pos h2] at hs
      have hr : alookup rc.record k = some nv := by
        have := congrArg Prod.fst hs
        simpa [sigmaAt, h2] using this
      have hc : alookup rc.confMap k =
          some (max (s.2.getD 0) ((alookup cc k).getD 0)) := by
        have := congrArg Prod.snd hs
        simpa [sigmaAt] using this
      have e1 : setField rc.record k nv = rc.record := setField_eq_self hr
      have e2 : setField rc.confMap k
          (max (s.2.getD 0) ((alookup cc k).getD 0)) = rc.confMap :=
        setField_eq_self hc
      simp [mergeStep, hcompat, hr, hc, e1, e2]
    · rw [if_neg h2] at hs
      by_cases h3 : t ≤ (alookup cc k).getD 0 ∨
          s.2.getD 0 < (alookup cc k).getD 0
      · rw [if_pos h3] at hs
        have hr : alookup rc.record k = some nv := by
          have := congrArg Prod.fst hs
          simpa [sigmaAt] using this
        have hc : alookup rc.confMap k = some ((alookup cc k).getD 0) := by
          have := congrArg Prod.snd hs
          simpa [sigmaAt] using this
        have e1 : setField rc.record k nv = rc.record := setField_eq_self hr
        have e2 : setField rc.confMap k ((alookup cc k).getD 0) =
            rc.confMap := setField_eq_self hc
        simp [mergeStep, hcompat, hr, hc, e1, e2]
      · rw [if_neg h3] at hs
        have hr : alookup rc.record k = s.1 := by
          have := congrArg Prod.fst hs
          simpa [sigmaAt] using this
        have hc : alookup rc.confMap k = s.2 := by
          have := congrArg Prod.snd hs
          simpa [sigmaAt] using this
        simp [mergeStep, hcompat, hr, hc, h2, h3]
  · have hcompat' : compatAt sch k nv = false := by
      simpa using hcompat
    simp [mergeStep, hcompat']

/-- C1: for a candidate field whose value differs structurally from the
existing value (an absent existing field read as confidence 0 and value
null), merge adopts the candidate's value and sets the field's confidence
to `new_conf` if and only if `new_conf >= threshold` or
`new_conf > old_conf`; otherwise it keeps the old value and the old
confidence unchanged. -/
theorem merge_adopt_iff (sch : List (String × Ty)) (e c : RecordCM) (t : Rat)
    (r : RecordCM) (w : List String) (k : String) (nv : Value)
    (hok : merge sch e c t = Except.ok (r, w))
    (hnd : (c.record.map Prod.fst).Nodup)
    (hmem : (k, nv) ∈ c.record)
    (hcompat : compatAt sch k nv = true)
    (hdiff : (alookup e.record k).getD Value.null ≠ nv) :
    ((t ≤ (alookup c.confMap k).getD 0 ∨
        (alookup e.confMap k).getD 0 < (alookup c.confMap k).getD 0) →
      alookup r.record k = some nv ∧
        alookup r.confMap k = some ((alookup c.confMap k).getD 0)) ∧
    (¬(t ≤ (alookup c.confMap k).getD 0 ∨
        (alookup e.confMap k).getD 0 < (alookup c.confMap k).getD 0) →
      alookup r.record k = alookup e.record k ∧
        alookup r.confMap k = alookup e.confMap k) ∧
    ((alookup r.record k = some nv ∧
        alookup r.confMap k = some ((alookup c.confMap k).getD 0)) ↔
      (t ≤ (alookup c.confMap k).getD 0 ∨
        (alookup e.confMap k).getD 0 < (alookup c.confMap k).getD 0)) := by
  obtain ⟨hv1, hv2, hr, hw⟩ := mergeOk_spec hok
  subst hr
  have hσ := sigmaAt_fold_mem t sch c.confMap e hnd hmem
  simp only [sigmaAt, stepAt] at hσ
  rw [if_pos hcompat, if_neg hdiff] at hσ
  by_cases hA : t ≤ (alookup c.confMap k).getD 0 ∨
      (alookup e.confMap k).getD 0 < (alookup c.confMap k).getD 0
  · rw [if_pos hA] at hσ
    simp only [Prod.mk.injEq] at hσ
    obtain ⟨hrv, hrc⟩ := hσ
    exact ⟨fun _ => ⟨hrv, hrc⟩, fun h => absurd hA h,
      ⟨fun _ => hA, fun _ => ⟨hrv, hrc⟩⟩⟩
  · rw [if_neg hA] at hσ
    simp only [Prod.mk.injEq] at hσ
    obtain ⟨hrv, hrc⟩ := hσ
    refine ⟨fun h => absurd h hA, fun _ => ⟨hrv, hrc⟩, ?_, fun h => absurd h hA⟩
    rintro ⟨h1, _⟩
    rw [hrv] at h1
    rw [h1] at hdiff
    exact absurd rfl hdiff

/-- C1 witness: existing `("A", 0)`, candidate `("B", 1)`, threshold 1,
adopts `("B", 1)` since the new confidence reaches the threshold. -/
theorem merge_adopt_iff_witness :
    merge [] (RecordCM.mk [("name", Value.str "A")] [("name", (0 : Rat))])
        (RecordCM.mk [("name", Value.str "B")] [("name", (1 : Rat))]) 1 =
      Except.ok
        (RecordCM.mk [("name", Value.str "B")] [("name", (1 : Rat))], []) ∧
    alookup [("name", Value.str "B")] "name" = some (Value.str "B") ∧
    alookup [("name", (1 : Rat))] "name" =
      some ((alookup [("name", (1 : Rat))] "name").getD 0) := by
  refine ⟨by rfl, ?_⟩
  exact (merge_adopt_iff [] ⟨[("name", Value.str "A")], [("name", 0)]⟩
      ⟨[("name", Value.str "B")], [("name", 1)]⟩ 1
      ⟨[("name", Value.str "B")], [("name", 1)]⟩ [] "name" (Value.str "B")
      (by rfl) (by decide) (by decide) (by decide) (by decide)).1 (by decide)

/-- C2: for a candidate field whose value is structurally equal to the
existing value, merge keeps the old value and sets the field's confidence
to `max(old_conf, new_conf)`; the resulting confidence is `>= old_conf`
and `>= new_conf`, so repeated confirmation never lowers confidence. -/
theorem merge_agree_max (sch : List (String × Ty)) (e c : RecordCM) (t : Rat)
    (r : RecordCM) (w : List String) (k : String) (nv : Value)
    (hok : merge sch e c t = Except.ok (r, w))
    (hnd : (c.record.map Prod.fst).Nodup)
    (hmem : (k, nv) ∈ c.record)
    (hcompat : compatAt sch k nv = true)
    (heq : (alookup e.record k).getD Value.null = nv) :
    alookup r.record k = some ((alookup e.record k).getD Value.null) ∧
    alookup r.confMap k =
      some (max ((alookup e.confMap k).getD 0) ((alookup c.confMap k).getD 0)) ∧
    (alookup e.confMap k).getD 0 ≤
      max ((alookup e.confMap k).getD 0) ((alookup c.confMap k).getD 0) ∧
    (alookup c.confMap k).getD 0 ≤
      max ((alookup e.confMap k).getD 0) ((alookup c.confMap k).getD 0) := by
  obtain ⟨hv1, hv2, hr, hw⟩ := mergeOk_spec hok
  subst hr
  have hσ := sigmaAt_fold_mem t sch c.confMap e hnd hmem
  simp only [sigmaAt, stepAt] at hσ
  rw [if_pos hcompat, if_pos heq] at hσ
  simp only [Prod.mk.injEq] at hσ
  exact ⟨hσ.1, hσ.2, le_max_left _ _, le_max_right _ _⟩

/-- C2 witness: existing `("A", 0)`, candidate `("A", 1)`, threshold 1;
the value is kept and the confidence becomes `max 0 1 = 1`. -/
theorem merge_agree_max_witness :
    merge [] (RecordCM.mk [("name", Value.str "A")] [("name", (0 : Rat))])
        (RecordCM.mk [("name", Value.str "A")] [("name", (1 : Rat))]) 1 =
      Except.ok
        (RecordCM.mk [("name", Value.str "A")] [("name", (1 : Rat))], []) ∧
    alookup (RecordCM.mk [("name", Value.str "A")]
        [("name", (1 : Rat))]).confMap "name" =
      some (max ((alookup [("name", (0 : Rat))] "name").getD 0)
        ((alookup [("name", (1 : Rat))] "name").getD 0)) := by
  refine ⟨by rfl, ?_⟩
  exact (merge_agree_max [] ⟨[("name", Value.str "A")], [("name", 0)]⟩
      ⟨[("name", Value.str "A")], [("name", 1)]⟩ 1
      ⟨[("name", Value.str "A")], [("name", 1)]⟩ [] "name" (Value.str "A")
      (by rfl) (by decide) (by decide) (by decide) (by decide)).2.1

/-- C3: if any confidence value in the existing record's or the
candidate's confidence map lies outside [0.0, 1.0], merge fails with
`InvalidConfidence`, rejecting the whole merge call; no updated record is
produced, so the existing record is unchanged. -/
theorem merge_invalid_confidence (sch : List (String × Ty)) (e c : RecordCM)
    (t : Rat)
    (hbad : ∃ p : String × Rat, (p ∈ e.confMap ∨ p ∈ c.confMap) ∧
      (p.2 < 0 ∨ 1 < p.2)) :
    merge sch e c t = Except.error MergeError.invalidConfidence := by
  obtain ⟨p, hp, hbnd⟩ := hbad
  have hnv : ¬(validConf e.confMap && validConf c.confMap) = true := by
    intro hv
    simp only [Bool.and_eq_true] at hv
    have hall : (decide (0 ≤ p.2) && decide (p.2 ≤ 1)) = true := by
      rcases hp with hp | hp
      · exact List.all_eq_true.mp hv.1 _ hp
      · exact List.all_eq_true.mp hv.2 _ hp
    simp only [Bool.and_eq_true, decide_eq_true_eq] at hall
    rcases hbnd with h | h
    · exact absurd hall.1 (not_le.mpr h)
    · exact absurd hall.2 (not_le.mpr h)
  unfold merge
  rw [if_neg hnv]

/-- C3 witness: a candidate confidence of 2 makes the whole merge call
fail with `InvalidConfidence`. -/
theorem merge_invalid_confidence_witness :
    merge [] (RecordCM.mk [] [])
        (RecordCM.mk [("name", Value.str "A")] [("name", (2 : Rat))]) 1 =
      Except.error MergeError.invalidConfidence :=
  merge_invalid_confidence [] ⟨[], []⟩
    ⟨[("name", Value.str "A")], [("name", 2)]⟩ 1
    ⟨("name", 2), Or.inr (by decide), Or.inr (by decide)⟩

/-- C5: a field of the existing record that is absent from the candidate
keeps its value and its confidence unchanged, regardless of the existing
confidence and of the threshold. -/
theorem merge_absent_untouched (sch : List (String × Ty)) (e c : RecordCM)
    (t : Rat) (r : RecordCM) (w : List String) (k : String)
    (hok : merge sch e c t = Except.ok (r, w))
    (hk : k ∉ c.record.map Prod.fst) :
    alookup r.record k = alookup e.record k ∧
      alookup r.confMap k = alookup e.confMap k := by
  obtain ⟨hv1, hv2, hr, hw⟩ := mergeOk_spec hok
  subst hr
  have hσ := sigmaAt_fold_frame t sch c.confMap c.record e k hk
  simp only [sigmaAt, Prod.mk.injEq] at hσ
  exact hσ

/-- C5 witness: the existing field `city` is absent from the candidate and
survives the merge untouched, even though its confidence 0 is minimal. -/
theorem merge_absent_untouched_witness :
    merge [] (RecordCM.mk [("city", Value.str "Edinburgh")]
        [("city", (0 : Rat))])
        (RecordCM.mk [("name", Value.str "B")] [("name", (1 : Rat))]) 1 =
      Except.ok
        (RecordCM.mk [("city", Value.str "Edinburgh"), ("name", Value.str "B")]
          [("city", (0 : Rat)), ("name", (1 : Rat))], []) ∧
    alookup [("city", Value.str "Edinburgh"), ("name", Value.str "B")] "city" =
      alookup [("city", Value.str "Edinburgh")] "city" ∧
    alookup [("city", (0 : Rat)), ("name", (1 : Rat))] "city" =
      alookup [("city", (0 : Rat))] "city" := by
  refine ⟨by rfl, ?_⟩
  exact merge_absent_untouched [] ⟨[("city", Value.str "Edinburgh")],
      [("city", 0)]⟩ ⟨[("name", Value.str "B")], [("name", 1)]⟩ 1
    ⟨[("city", Value.str "Edinburgh"), ("name", Value.str "B")],
      [("city", 0), ("name", 1)]⟩ [] "city" (by rfl) (by decide)

/-- C4: merge is idempotent in the candidate: merging the same candidate
into the result of a successful first merge returns exactly the first
merge's Record+ConfidenceMap (and the same warning list); every field's
value and confidence are stable. -/
theorem merge_idempotent (sch : List (String × Ty)) (e c : RecordCM) (t : Rat)
    (r : RecordCM) (w : List String)
    (hnd : (c.record.map Prod.fst).Nodup)
    (hok : merge sch e c t = Except.ok (r, w)) :
    merge sch r c t = Except.ok (r, w) := by
  obtain ⟨hv1, hv2, hr, hw⟩ := mergeOk_spec hok
  have hvr : validConf r.confMap = true := by
    rw [hr]
    exact fold_validConf t sch c.record hv1 hv2
  unfold merge
  rw [if_pos (by rw [hvr, hv2]; rfl)]
  have hfix : c.record.foldl (mergeStep t sch c.confMap) r = r := by
    refine foldl_fix ?_
    intro p hp
    obtain ⟨k, nv⟩ := p
    have hσ : sigmaAt r k = stepAt t sch c.confMap (sigmaAt e k) k nv := by
      rw [hr]
      exact sigmaAt_fold_mem t sch c.confMap e hnd hp
    exact mergeStep_fixed t sch c.confMap hσ
  rw [hfix, ← hw]

/-- C4 witness: merging the candidate `("a", "X", 1)` into the empty
record yields `("a", "X", 1)`, and merging the same candidate again into
that result returns it unchanged. -/
theorem merge_idempotent_witness :
    merge [] (RecordCM.mk [] [])
        (RecordCM.mk [("a", Value.str "X")] [("a", (1 : Rat))]) 1 =
      Except.ok (RecordCM.mk [("a", Value.str "X")] [("a", (1 : Rat))], []) ∧
    merge [] (RecordCM.mk [("a", Value.str "X")] [("a", (1 : Rat))])
        (RecordCM.mk [("a", Value.str "X")] [("a", (1 : Rat))]) 1 =
      Except.ok (RecordCM.mk [("a", Value.str "X")] [("a", (1 : Rat))], []) :=
  ⟨by rfl,
   merge_idempotent [] ⟨[], []⟩ ⟨[("a", Value.str "X")], [("a", 1)]⟩ 1
     ⟨[("a", Value.str "X")], [("a", 1)]⟩ [] (by decide) (by rfl)⟩

/-- C6: when one candidate field's value is incompatible with its declared
type, a successful merge skips exactly that field, reports it in the
warning list in place, and produces the same merged Record+ConfidenceMap
as merging the candidate without the offending field; the other warnings
are also unchanged. -/
theorem merge_type_mismatch_skip (sch : List (String × Ty)) (e c : RecordCM)
    (t : Rat) (r : RecordCM) (w : List String)
    (pre post : List (String × Value)) (k : String) (nv : Value)
    (hsplit : c.record = pre ++ (k, nv) :: post)
    (hbad : compatAt sch k nv = false)
    (hok : merge sch e c t = Except.ok (r, w)) :
    ∃ w1 w2, w = w1 ++ k :: w2 ∧
      merge sch e (RecordCM.mk (pre ++ post) c.confMap) t =
        Except.ok (r, w1 ++ w2) := by
  obtain ⟨hv1, hv2, hr, hw⟩ := mergeOk_spec hok
  refine ⟨(pre.filter (fun p => !(compatAt sch p.1 p.2))).map Prod.fst,
    (post.filter (fun p => !(compatAt sch p.1 p.2))).map Prod.fst, ?_, ?_⟩
  · rw [hw, hsplit]
    simp [List.filter_append, List.filter_cons, hbad]
  · unfold merge
    rw [if_pos (by rw [hv1, hv2]; rfl)]
    have hskip : ∀ acc : RecordCM, mergeStep t sch c.confMap acc (k, nv) = acc := by
      intro acc
      simp [mergeStep, hbad]
    have hfold : (pre ++ post).foldl (mergeStep t sch c.confMap) e = r := by
      rw [hr, hsplit, List.foldl_append, List.foldl_append, List.foldl_cons,
        hskip]
    rw [hfold]
    simp [List.filter_append]

/-- C6 witness: with `n` declared numeric, the candidate field
`("n", "oops")` is skipped with a warning while `("m", "ok")` is applied;
the merged record matches the merge without the offending field. -/
theorem merge_type_mismatch_skip_witness :
    merge [("n", Ty.num)] (RecordCM.mk [] [])
        (RecordCM.mk [("n", Value.str "oops"), ("m", Value.str "ok")]
          [("n", (1 : Rat)), ("m", (1 : Rat))]) 1 =
      Except.ok (RecordCM.mk [("m", Value.str "ok")] [("m", (1 : Rat))],
        ["n"]) ∧
    ∃ w1 w2, (["n"] : List String) = w1 ++ "n" :: w2 ∧
      merge [("n", Ty.num)] (RecordCM.mk [] [])
          (RecordCM.mk ([] ++ [("m", Value.str "ok")])
            [("n", (1 : Rat)), ("m", (1 : Rat))]) 1 =
        Except.ok (RecordCM.mk [("m", Value.str "ok")] [("m", (1 : Rat))],
          w1 ++ w2) :=
  ⟨by rfl,
   merge_type_mismatch_skip [("n", Ty.num)] ⟨[], []⟩
     ⟨[("n", Value.str "oops"), ("m", Value.str "ok")], [("n", 1), ("m", 1)]⟩
     1 ⟨[("m", Value.str "ok")], [("m", 1)]⟩ ["n"]
     [] [("m", Value.str "ok")] "n" (Value.str "oops")
     (by rfl) (by decide) (by rfl)⟩

/-- C7: merge preserves the data-model invariant: when the existing
Record+ConfidenceMap and the candidate both satisfy it, the merge
succeeds and the returned Record+ConfidenceMap satisfies it as well. -/
theorem merge_preserves_invariant (sch : List (String × Ty)) (e c : RecordCM)
    (t : Rat) (hie : Invariant e) (hic : Invariant c) :
    ∃ r w, merge sch e c t = Except.ok (r, w) ∧ Invariant r := by
  refine ⟨c.record.foldl (mergeStep t sch c.confMap) e,
    (c.record.filter (fun p => !(compatAt sch p.1 p.2))).map Prod.fst, ?_, ?_⟩
  · unfold merge
    rw [if_pos (by rw [hie.1, hic.1]; rfl)]
  · exact fold_invariant t sch c.record hie hic.1

/-- C7 witness: both inputs satisfy the invariant and so does the merge
result. -/
theorem merge_preserves_invariant_witness :
    Invariant (RecordCM.mk [("name", Value.str "A")] [("name", (1 : Rat))]) ∧
    Invariant (RecordCM.mk [("name", Value.str "B")] [("name", (0 : Rat))]) ∧
    ∃ r w, merge [] (RecordCM.mk [("name", Value.str "A")]
        [("name", (1 : Rat))])
        (RecordCM.mk [("name", Value.str "B")] [("name", (0 : Rat))]) 1 =
      Except.ok (r, w) ∧ Invariant r :=
  ⟨⟨by decide, by decide⟩, ⟨by decide, by decide⟩,
   merge_preserves_invariant [] ⟨[("name", Value.str "A")], [("name", 1)]⟩
     ⟨[("name", Value.str "B")], [("name", 0)]⟩ 1
     ⟨by decide, by decide⟩ ⟨by decide, by decide⟩⟩

/-- C8: merge is a deterministic function of its inputs: two calls with
equal schema, equal existing Record+ConfidenceMap, equal candidate and
equal threshold return equal results.  In the embedding merge is a total
function, so it performs no I/O and mutates no state. -/
theorem merge_deterministic (sch1 sch2 : List (String × Ty))
    (e1 e2 c1 c2 : RecordCM) (t1 t2 : Rat)
    (hs : sch1 = sch2) (he : e1 = e2) (hc : c1 = c2) (ht : t1 = t2) :
    merge sch1 e1 c1 t1 = merge sch2 e2 c2 t2 := by
  rw [hs, he, hc, ht]

/-- C8 witness: two syntactically equal calls return equal results. -/
theorem merge_deterministic_witness :
    merge [] (RecordCM.mk [("a", Value.str "X")] [("a", (1 : Rat))])
        (RecordCM.mk [("b", Value.str "Y")] [("b", (1 : Rat))]) 1 =
      merge [] (RecordCM.mk [("a", Value.str "X")] [("a", (1 : Rat))])
        (RecordCM.mk [("b", Value.str "Y")] [("b", (1 : Rat))]) 1 :=
  merge_deterministic [] [] ⟨[("a", Value.str "X")], [("a", 1)]⟩
    ⟨[("a", Value.str "X")], [("a", 1)]⟩
    ⟨[("b", Value.str "Y")], [("b", 1)]⟩
    ⟨[("b", Value.str "Y")], [("b", 1)]⟩ 1 1 rfl rfl rfl rfl

/-- C9: the category page renders the not-found page exactly when the
slug has no entry in the categories configuration, or its entry has
`isLive = false`, or the listings query for the slug returns an empty
list; only otherwise does it render the listing grid. -/
theorem category_page_not_found_iff (fetch : String → List Listing)
    (slug : String) :
    categoryPage fetch slug = CategoryPageResult.notFound ↔
      (alookup categories slug = none ∨
        (∃ cfg, alookup categories slug = some cfg ∧ cfg.isLive = false) ∨
        fetch slug = []) := by
  unfold categoryPage
  cases hc : alookup categories slug with
  | none => simp
  | some cfg =>
      by_cases hl : cfg.isLive = false
      · simp [hl]
      · cases hf : fetch slug with
        | nil => simp [hl, hf]
        | cons x xs => simp [hl, hf]

/-- C10: `VenueCard` renders a badge for a configured card field exactly
when the venue's value for that field is neither null nor undefined; in
particular a court count of 0 is rendered as a badge, while the listing
page's Quick Facts hides a court count of 0 because it tests truthiness. -/
theorem venue_card_badge_iff :
    (∀ (vs : VenueRow) (cf : CardField),
      (cardFieldBadge vs cf).isSome = true ↔
        ∃ v, alookup vs cf.field = some (some v)) ∧
    venueCardBadges
        (Listing.mk "meadows" "Meadows Tennis" "venue"
          (some [("tennis", some (DBValue.bool true)),
                 ("tennis_total_courts", some (DBValue.num 0))]))
        (EntityConfig.mk "tennis_summary"
          [⟨"tennis_total_courts", some "courts"⟩]) =
      [(DBValue.num 0, some "courts")] ∧
    quickFactsShowsTennisCourts
        (Listing.mk "meadows" "Meadows Tennis" "venue"
          (some [("tennis", some (DBValue.bool true)),
                 ("tennis_total_courts", some (DBValue.num 0))])) = false := by
  refine ⟨?_, by decide, by decide⟩
  intro vs cf
  unfold cardFieldBadge
  cases h : alookup vs cf.field with
  | none => simp
  | some ov =>
      cases ov with
      | none => simp
      | some v => simp
